import Mathlib

/-!
Shallow embedding of the ExcisionFinder core logic.

Sources:
- `src/paper_scripts/ExcisionFinder_filt_by_score.py` : `next_exon`, `targ_pair`,
  `has_targ_pair`, `targetable_haplotypes`, `targ_haps_both_alt`,
  `haplotype_targetability`, `has_targ_pos_pair_same_hap`, and the pair
  generation loop inside `main`.
- `src/manuscript_analyses/wtc_analysis/src/hg19_analysis/single_cut_targ_wtc_hg19.py` :
  `Gene.__init__` (coding exon clipping) and `Gene.get_coding_positions_and_starts`.

Genomic positions are modelled as `Int` (Python integers); alleles and sample
identifiers as `String`; pandas row collections as `List`s of structures.
-/

/-- One row of the variant targetability table (`chrdf` in the source): a
genomic position, reference and alternate allele, and the `makes_*`,
`breaks_*`, `var_near_*` boolean columns for the single Cas variety the
script evaluates (`CAS_LIST[1:] = [SaCas9_KKH]`, so each of the column lists
returned by `relevant_columns` is a singleton). -/
structure ChrRow where
  pos : Int
  ref : String
  alt : String
  makes : Bool
  breaks : Bool
  near : Bool

/-- One row of the long-form per-individual haplotype targetability table
(`targ_haps` in the source), restricted to one Cas variety: the columns
`sample`, `pos`, `hap1_{cas}` and `hap2_{cas}`. The table holds one row per
(sample, heterozygous position) combination. -/
structure HapRow where
  sample : String
  pos : Int
  hap1 : Bool
  hap2 : Bool

/-- Minimum of a nonempty collection, `none` on the empty one: models
`greater_than_var.min()` guarded by the `greater_than_var.empty` check in
`next_exon` (the Python function returns `False` for the empty case). -/
def series_min : List Int → Option Int
  | [] => none
  | x :: xs =>
    match series_min xs with
    | none => some x
    | some m => some (min x m)

/-- Embedding of `next_exon(variant_position, coding_exon_starts)`: the least
coding exon start strictly greater than the variant position, or `none`
(Python `False`) when there is no such start. -/
def next_exon (variant_position : Int) (coding_exon_starts : List Int) : Option Int :=
  series_min (coding_exon_starts.filter (fun s => variant_position < s))

/-- Embedding of `targ_pair(variant1, variant2, coding_positions,
coding_exon_starts)`. `sorted([variant1, variant2])` yields
(`min`, `max`). In the final `bool(high_var >= next_exon(...))` of the
source, `next_exon` may return the Python constant `False`, which compares
as the integer `0`; the `none` branch below reproduces that comparison. -/
def targ_pair (variant1 variant2 : Int) (coding_positions : List Int)
    (coding_exon_starts : List Int) : Bool :=
  if min variant1 variant2 ∈ coding_positions ∨ max variant1 variant2 ∈ coding_positions then
    true
  else
    match next_exon (min variant1 variant2) coding_exon_starts with
    | none => decide (0 ≤ max variant1 variant2)
    | some nxt => decide (nxt ≤ max variant1 variant2)

/-- Embedding of `has_targ_pair(het_positions, targ_pairs)`: whether some
pair in `targ_pairs` has both of its positions inside `het_positions`
(`set(x).issubset(het_positions)` with early exit). -/
def has_targ_pair (het_positions : List Int) (targ_pairs : List (Int × Int)) : Bool :=
  targ_pairs.any (fun x => decide (x.1 ∈ het_positions) && decide (x.2 ∈ het_positions))

/-- Embedding of `targetable_haplotypes(targ_data, make_cols, break_cols,
near_cols)` for the script's Cas list, where each column list is a
singleton: `targ_data[make_cols].any().any()` is then "some row has its
`makes` flag set", and likewise for `breaks` and `var_near`. The function
returns the pair (alt-carrying haplotype targetable, reference-carrying
haplotype targetable). -/
def targetable_haplotypes (targ_data : List ChrRow) : Bool × Bool :=
  let targ_alt_hap := if targ_data.any (fun r => r.makes) then true else false
  let targ_ref_hap := if targ_data.any (fun r => r.breaks) then true else false
  if targ_data.any (fun r => r.near) then (true, true) else (targ_alt_hap, targ_ref_hap)

/-- Embedding of `targ_haps_both_alt(rel_row_1, rel_row_2, ...)`: evaluate
haplotype 1's row; if it already marks both haplotypes targetable return it,
otherwise also evaluate haplotype 2's row and return the componentwise
disjunction (`any([...])`) of the two results. -/
def targ_haps_both_alt (rel_row_1 rel_row_2 : List ChrRow) : Bool × Bool :=
  let t1 := targetable_haplotypes rel_row_1
  if t1.1 && t1.2 then t1
  else
    let t2 := targetable_haplotypes rel_row_2
    (t1.1 || t2.1, t1.2 || t2.2)

/-- Models `chrdf.query('pos == @position').ref.item()`: pandas `.item()`
succeeds exactly when the filtered frame has a single row, and raises
`ValueError` otherwise; `none` stands for the raised exception. -/
def item_ref : List ChrRow → Option String
  | [r] => some r.ref
  | _ => none

/-- Embedding of `haplotype_targetability(position, sample, chrdf,
roigens_hdf, cas_type)`. The genotype lookup and its `split` are abstracted
into the two allele arguments (their own `ValueError` failures land in the
same `except ValueError: return False, False` handler as the `ref`
extraction modelled here). The result is `none` only for the
`logging.error(...); exit()` branch, which aborts the run; every caught
`ValueError` returns `some (false, false)`. -/
def haplotype_targetability (chrdf : List ChrRow) (position : Int)
    (hap1_allele hap2_allele : String) : Option (Bool × Bool) :=
  match item_ref (chrdf.filter (fun r => r.pos == position)) with
  | none => some (false, false)
  | some ref =>
    if hap2_allele = ref then
      some (targetable_haplotypes
        (chrdf.filter (fun r => r.pos == position && r.alt == hap1_allele)))
    else if hap1_allele = ref then
      let t := targetable_haplotypes
        (chrdf.filter (fun r => r.pos == position && r.alt == hap2_allele))
      some (t.2, t.1)
    else if hap1_allele ≠ ref ∧ hap2_allele ≠ ref then
      some (targ_haps_both_alt
        (chrdf.filter (fun r => r.pos == position && r.alt == hap1_allele))
        (chrdf.filter (fun r => r.pos == position && r.alt == hap2_allele)))
    else none

/-- Embedding of `has_targ_pos_pair_same_hap(sample, cas_type, targ_pairs,
targ_haps_df)`: collect the sample's positions whose `hap1` flag is set,
then those whose `hap2` flag is set, and test each set against the
targetable pairs. -/
def has_targ_pos_pair_same_hap (sample : String) (targ_pairs : List (Int × Int))
    (targ_haps_df : List HapRow) : Bool :=
  let sample_hets_hap1 :=
    (targ_haps_df.filter (fun r => r.hap1 && r.sample == sample)).map (fun r => r.pos)
  let sample_hets_hap2 :=
    (targ_haps_df.filter (fun r => r.hap2 && r.sample == sample)).map (fun r => r.pos)
  if has_targ_pair sample_hets_hap1 targ_pairs then true
  else if has_targ_pair sample_hets_hap2 targ_pairs then true
  else false

/-- Cartesian product of two position lists, in the order produced by
`itertools.product(variants, variants, repeat=1)`. -/
def product2 : List Int → List Int → List (Int × Int)
  | [], _ => []
  | v :: vs, ws => ws.map (fun w => (v, w)) ++ product2 vs ws

/-- Embedding of the pair generation loop in `main` (the `targ_pairs_tuple`
construction): keep exactly those ordered pairs of variants that are
distinct, whose span is at most the hard-coded 10,000 bp, and that pass
`targ_pair`. -/
def gen_pairs (variants : List Int) (coding_positions : List Int)
    (coding_exon_starts : List Int) : List (Int × Int) :=
  (product2 variants variants).filter
    (fun p => decide (p.1 ≠ p.2)
      && decide (max p.1 p.2 ≤ min p.1 p.2 + 10000)
      && targ_pair p.1 p.2 coding_positions coding_exon_starts)

/-- One pass of the exon-clipping loop in `Gene.__init__`: `counter` is the
number of exons already processed, `total` the Python `counterweight`
(the number of exon pairs). The first exon has its start clipped to
`max(coding_start, start)`; otherwise (`elif`) the last exon has its end
clipped to `min(coding_end, end)`; all other exons pass unchanged. -/
def clip_loop (cds_start cds_end : Int) (total : Nat) :
    Nat → List (Int × Int) → List (Int × Int)
  | _, [] => []
  | counter, x :: xs =>
    (if counter + 1 = 1 then (max cds_start x.1, x.2)
     else if counter + 1 = total then (x.1, min cds_end x.2)
     else x) :: clip_loop cds_start cds_end total (counter + 1) xs

/-- Embedding of the `self.coding_exons` construction in `Gene.__init__`. -/
def coding_exons (cds_start cds_end : Int) (exons : List (Int × Int)) : List (Int × Int) :=
  clip_loop cds_start cds_end exons.length 0 exons

/-- Models Python `list(range(a, b + 1))`: the integers from `a` to `b`
inclusive, empty when `b < a`. -/
def rangeIncl (a b : Int) : List Int :=
  (List.range (b + 1 - a).toNat).map (fun (i : Nat) => a + (i : Int))

/-- Embedding of the `coding_positions` accumulation in
`Gene.get_coding_positions_and_starts`: extend with
`range(start, stop + 1)` for each coding exon. -/
def get_coding_positions : List (Int × Int) → List Int
  | [] => []
  | (s, e) :: rest => rangeIncl s e ++ get_coding_positions rest

/-- Embedding of the `coding_exon_starts` accumulation in
`Gene.get_coding_positions_and_starts`: append each exon's start. -/
def get_coding_exon_starts : List (Int × Int) → List Int
  | [] => []
  | (s, _) :: rest => s :: get_coding_exon_starts rest

/-- C10: `targ_pair` is symmetric in its two position arguments. -/
theorem c10_targ_pair_symmetric (a b : Int) (coding_positions : List Int)
    (coding_exon_starts : List Int) :
    targ_pair a b coding_positions coding_exon_starts
      = targ_pair b a coding_positions coding_exon_starts := by
  unfold targ_pair
  rw [min_comm a b, max_comm a b]

theorem clip_loop_append_last (cds_start cds_end c d : Int) :
    ∀ (mid : List (Int × Int)) (k total : Nat), 1 ≤ k → total = k + mid.length + 1 →
      clip_loop cds_start cds_end total k (mid ++ [(c, d)])
        = mid ++ [(c, min cds_end d)] := by
  intro mid
  induction mid with
  | nil =>
    intro k total hk htot
    simp only [List.length_nil] at htot
    simp only [List.nil_append]
    simp only [clip_loop]
    rw [if_neg (by omega), if_pos (by omega)]
  | cons x xs ih =>
    intro k total hk htot
    simp only [List.length_cons] at htot
    simp only [List.cons_append]
    simp only [clip_loop]
    rw [if_neg (by omega), if_neg (by omega)]
    rw [ih (k + 1) total (by omega) (by omega)]

/-- C3: in `Gene.__init__`, for a transcript with at least two exons the
first exon's start is clipped to `max(exonStart, cdsStart)`, the last
exon's end is clipped to `min(exonEnd, cdsEnd)`, and interior exons pass
through unchanged; for a single-exon transcript only the start clip is
applied (the `if counter == 1` branch shadows the
`elif counter == counterweight` branch), so the end is NOT clipped. -/
theorem c3_coding_exons_clipping :
    (∀ (cds_start cds_end a b c d : Int) (mid : List (Int × Int)),
      coding_exons cds_start cds_end ((a, b) :: mid ++ [(c, d)])
        = (max cds_start a, b) :: (mid ++ [(c, min cds_end d)]))
    ∧ (∀ (cds_start cds_end a b : Int),
      coding_exons cds_start cds_end [(a, b)] = [(max cds_start a, b)]) := by
  constructor
  · intro cds_start cds_end a b c d mid
    unfold coding_exons
    simp only [clip_loop, if_true]
    congr 1
    exact clip_loop_append_last cds_start cds_end c d mid 1
      (((a, b) :: mid ++ [(c, d)]).length) (by omega)
      (by simp only [List.length_cons, List.length_append, List.length_nil]; omega)
  · intro cds_start cds_end a b
    rfl

/-- C3 counterexample: for the single-exon transcript with exon (5, 30),
coding start 10 and coding end 20, the code produces [(10, 30)] — the end
is not clipped — while the claim predicts [(10, 20)]. -/
theorem c3_single_exon_counterexample :
    coding_exons 10 20 [(5, 30)] = [(10, 30)]
      ∧ coding_exons 10 20 [(5, 30)] ≠ [(10, 20)] := by decide

/-- C1 (code bug evaluation): with coding exon starts `[100]` and coding
positions `{100}`, the pair (200, 300) has no coding exon start strictly
above `low = 200` (`next_exon` returns its `False` sentinel), yet
`targ_pair` returns `True`, because Python evaluates
`high_var >= False` as `300 >= 0`. The spec says such a pair is NOT
targetable. -/
theorem c1_no_next_exon_sentinel_eval :
    next_exon 200 [100] = none ∧ targ_pair 200 300 [100] [100] = true := by
  decide

/-- C7: the single-row targetability mapping: the alt-carrying haplotype is
targetable iff `makes` or `var_near` holds, and the reference-carrying
haplotype is targetable iff `breaks` or `var_near` holds; in particular
`makes` implies the alt haplotype, `breaks` implies the ref haplotype,
`var_near` implies both (this script always includes the `var_near`
columns, i.e. it runs in relaxed mode), and the three flags combine
independently. -/
theorem c7_single_row_mapping (r : ChrRow) :
    targetable_haplotypes [r] = (r.makes || r.near, r.breaks || r.near) := by
  rcases r with ⟨pos, ref, alt, m, b, n⟩
  cases m <;> cases b <;> cases n <;> rfl

/-- C2: in the AltAlt state the resolver's output is the componentwise OR
of the two single-row results: with `(t1a, t2a)` the mapping of haplotype
1's row and `(t1b, t2b)` the mapping of haplotype 2's row, the result is
`(t1a || t1b, t2a || t2b)` (the early return when haplotype 1's row already
gives `(true, true)` agrees with the OR); in particular one row yielding
`(true, false)` and the other `(false, true)` yields `(true, true)`. -/
theorem c2_targ_haps_both_alt_componentwise_or :
    (∀ rel_row_1 rel_row_2 : List ChrRow,
      targ_haps_both_alt rel_row_1 rel_row_2
        = ((targetable_haplotypes rel_row_1).1 || (targetable_haplotypes rel_row_2).1,
           (targetable_haplotypes rel_row_1).2 || (targetable_haplotypes rel_row_2).2))
    ∧ (targetable_haplotypes [⟨0, "A", "G", true, false, false⟩] = (true, false)
        ∧ targetable_haplotypes [⟨0, "A", "T", false, true, false⟩] = (false, true)
        ∧ targ_haps_both_alt [⟨0, "A", "G", true, false, false⟩]
            [⟨0, "A", "T", false, true, false⟩] = (true, true)) := by
  constructor
  · intro rel_row_1 rel_row_2
    unfold targ_haps_both_alt
    rcases h1 : targetable_haplotypes rel_row_1 with ⟨a1, b1⟩
    rcases h2 : targetable_haplotypes rel_row_2 with ⟨a2, b2⟩
    cases a1 <;> cases b1 <;> simp
  · exact ⟨rfl, rfl, rfl⟩

theorem mem_range_map (a : Int) (n : Nat) (p : Int) :
    p ∈ (List.range n).map (fun (i : Nat) => a + (i : Int)) ↔ a ≤ p ∧ p < a + (n : Int) := by
  constructor
  · intro hp
    rw [List.mem_map] at hp
    obtain ⟨i, hi, hip⟩ := hp
    rw [List.mem_range] at hi
    omega
  · intro hp
    rw [List.mem_map]
    refine ⟨(p - a).toNat, ?_, ?_⟩
    · rw [List.mem_range]
      omega
    · omega

theorem mem_rangeIncl (a b p : Int) : p ∈ rangeIncl a b ↔ a ≤ p ∧ p ≤ b := by
  unfold rangeIncl
  rw [mem_range_map]
  constructor <;> (intro h; omega)

theorem mem_get_coding_positions (exons : List (Int × Int)) (p : Int) :
    p ∈ get_coding_positions exons ↔ ∃ se ∈ exons, se.1 ≤ p ∧ p ≤ se.2 := by
  induction exons with
  | nil => simp [get_coding_positions]
  | cons x rest ih =>
    cases x with
    | mk s e =>
      simp only [get_coding_positions, List.mem_append, mem_rangeIncl, ih,
        List.exists_mem_cons_iff]

theorem get_coding_exon_starts_eq_map (exons : List (Int × Int)) :
    get_coding_exon_starts exons = exons.map Prod.fst := by
  induction exons with
  | nil => rfl
  | cons x rest ih =>
    cases x with
    | mk s e => simp [get_coding_exon_starts, ih]

theorem length_get_coding_positions :
    ∀ (exons : List (Int × Int)), (∀ se ∈ exons, se.1 ≤ se.2) →
      ((get_coding_positions exons).length : Int)
        = (exons.map (fun se => se.2 - se.1 + 1)).sum := by
  intro exons
  induction exons with
  | nil =>
    intro _
    simp [get_coding_positions]
  | cons x rest ih =>
    intro h
    cases x with
    | mk s e =>
      have hse : s ≤ e := by
        have := h (s, e) (by simp)
        simpa using this
      have hrest : ∀ se ∈ rest, se.1 ≤ se.2 := fun se hmem => h se (by simp [hmem])
      have h2 := ih hrest
      have h1 : (rangeIncl s e).length = (e + 1 - s).toNat := by
        unfold rangeIncl
        rw [List.length_map, List.length_range]
      simp only [get_coding_positions, List.length_append, List.map_cons, List.sum_cons, h1]
      push_cast
      omega

/-- C9: for a list of coding exons (each with start at most end),
`get_coding_positions` holds exactly the union of the inclusive ranges
[start, end], its size is the sum of (end - start + 1) over the exons, and
`get_coding_exon_starts` is exactly the start coordinate of each exon. -/
theorem c9_coding_positions_and_starts (exons : List (Int × Int))
    (h : ∀ se ∈ exons, se.1 ≤ se.2) :
    (∀ p : Int, p ∈ get_coding_positions exons ↔ ∃ se ∈ exons, se.1 ≤ p ∧ p ≤ se.2)
      ∧ ((get_coding_positions exons).length : Int)
          = (exons.map (fun se => se.2 - se.1 + 1)).sum
      ∧ get_coding_exon_starts exons = exons.map Prod.fst :=
  ⟨fun p => mem_get_coding_positions exons p,
   length_get_coding_positions exons h,
   get_coding_exon_starts_eq_map exons⟩

/-- C9 witness at the concrete exon list [(1, 3), (10, 10)]. -/
theorem c9_witness :
    (((get_coding_positions [((1 : Int), (3 : Int)), ((10 : Int), (10 : Int))]).length : Int)
        = ([((1 : Int), (3 : Int)), ((10 : Int), (10 : Int))].map
            (fun se => se.2 - se.1 + 1)).sum)
      ∧ (2 : Int) ∈ get_coding_positions [((1 : Int), (3 : Int)), ((10 : Int), (10 : Int))] := by
  have h := c9_coding_positions_and_starts
    [((1 : Int), (3 : Int)), ((10 : Int), (10 : Int))] (by decide)
  exact ⟨h.2.1, (h.1 2).mpr (by decide)⟩

/-- C8: every pair kept by the generation loop consists of two distinct
positions at most 10,000 bp apart that pass `targ_pair`; consequently a
pair of positions 15,000 bp apart never occurs among the generated
targetable pairs. -/
theorem c8_generated_pairs_window_distinct_targetable (variants : List Int)
    (coding_positions : List Int) (coding_exon_starts : List Int) :
    (∀ p ∈ gen_pairs variants coding_positions coding_exon_starts,
        p.1 ≠ p.2 ∧ |p.1 - p.2| ≤ 10000
          ∧ targ_pair p.1 p.2 coding_positions coding_exon_starts = true)
      ∧ ∀ a b : Int, |a - b| = 15000 →
          (a, b) ∉ gen_pairs variants coding_positions coding_exon_starts := by
  have main : ∀ p ∈ gen_pairs variants coding_positions coding_exon_starts,
      p.1 ≠ p.2 ∧ |p.1 - p.2| ≤ 10000
        ∧ targ_pair p.1 p.2 coding_positions coding_exon_starts = true := by
    intro p hp
    simp only [gen_pairs, List.mem_filter] at hp
    obtain ⟨-, hpred⟩ := hp
    simp only [Bool.and_eq_true, decide_eq_true_eq] at hpred
    obtain ⟨⟨hne, hwin⟩, htp⟩ := hpred
    refine ⟨hne, ?_, htp⟩
    rw [abs_sub_le_iff]
    constructor
    · have ha := le_max_left p.1 p.2
      have hb := min_le_right p.1 p.2
      omega
    · have ha := le_max_right p.1 p.2
      have hb := min_le_left p.1 p.2
      omega
  refine ⟨main, ?_⟩
  intro a b hab hmem
  have h := (main (a, b) hmem).2.1
  simp only at h
  omega

/-- C8 witness: (0, 100) is generated for variants [0, 100] with coding
position 0, and (0, 15000) is never generated. -/
theorem c8_witness :
    ((0 : Int), (100 : Int)) ∈ gen_pairs [0, 100] [0] []
      ∧ ((0 : Int) ≠ (100 : Int) ∧ |(0 : Int) - 100| ≤ 10000
          ∧ targ_pair 0 100 [0] [] = true)
      ∧ ((0 : Int), (15000 : Int)) ∉ gen_pairs [0, 15000] [0] [] := by
  have h := c8_generated_pairs_window_distinct_targetable [0, 100] [0] []
  have h2 := c8_generated_pairs_window_distinct_targetable [0, 15000] [0] []
  exact ⟨by decide, h.1 (0, 100) (by decide), h2.2 0 15000 (by decide)⟩

/-- C4: when neither haplotype allele has a matching targetability row at
the queried position (the Unresolved state, e.g. missing annotation), the
haplotype resolver returns not-targetable for both haplotypes and does not
abort (the `exit()` branch, modelled by `none`, is not taken): this holds
whether the reference-allele extraction fails (caught `ValueError`) or one
of the query-by-allele lookups simply comes back empty. -/
theorem c4_unresolved_not_targetable_no_abort (chrdf : List ChrRow) (position : Int)
    (hap1_allele hap2_allele : String)
    (h1 : ∀ r ∈ chrdf, r.pos = position → r.alt ≠ hap1_allele)
    (h2 : ∀ r ∈ chrdf, r.pos = position → r.alt ≠ hap2_allele) :
    haplotype_targetability chrdf position hap1_allele hap2_allele
      = some (false, false) := by
  have e1 : chrdf.filter (fun r => r.pos == position && r.alt == hap1_allele) = [] := by
    rw [List.filter_eq_nil_iff]
    intro r hr
    simp only [Bool.and_eq_true, beq_iff_eq, not_and]
    intro hp
    exact h1 r hr hp
  have e2 : chrdf.filter (fun r => r.pos == position && r.alt == hap2_allele) = [] := by
    rw [List.filter_eq_nil_iff]
    intro r hr
    simp only [Bool.and_eq_true, beq_iff_eq, not_and]
    intro hp
    exact h2 r hr hp
  unfold haplotype_targetability
  rw [e1, e2]
  split
  · rfl
  · split_ifs with hA hB hC
    · rfl
    · rfl
    · rfl
    · exact absurd ⟨hB, hA⟩ hC

/-- C4 witness: position 5 is annotated (single row, ref A, alt G) but the
sample carries C and T there; the resolver yields (false, false). -/
theorem c4_witness :
    haplotype_targetability [⟨5, "A", "G", true, true, true⟩] 5 "C" "T"
      = some (false, false) :=
  c4_unresolved_not_targetable_no_abort _ _ _ _ (by decide) (by decide)

/-- C5: if the targetability table holds two or more rows at the queried
position (a multi-allelic site), the resolver returns (false, false)
regardless of the rows' flags and of which alleles the sample carries:
extracting the single reference allele (`.ref.item()`) fails and the
caught `ValueError` resolves to the conservative default. -/
theorem c5_multiallelic_conservative_default (chrdf : List ChrRow) (position : Int)
    (hap1_allele hap2_allele : String)
    (h : 2 ≤ (chrdf.filter (fun r => r.pos == position)).length) :
    haplotype_targetability chrdf position hap1_allele hap2_allele
      = some (false, false) := by
  have hnone : item_ref (chrdf.filter (fun r => r.pos == position)) = none := by
    cases hfl : chrdf.filter (fun r => r.pos == position) with
    | nil =>
      rw [hfl] at h
      simp at h
    | cons a rest =>
      cases rest with
      | nil =>
        rw [hfl] at h
        simp at h
      | cons b rest2 => rfl
  unfold haplotype_targetability
  rw [hnone]

/-- C5 witness: a biallelic site (two rows at position 7, alts G and T,
with live flags) where the sample is G|T; the resolver yields
(false, false). -/
theorem c5_witness :
    haplotype_targetability
      [⟨7, "A", "G", true, false, false⟩, ⟨7, "A", "T", false, true, false⟩]
      7 "G" "T" = some (false, false) :=
  c5_multiallelic_conservative_default _ _ _ _ (by decide)

theorem has_targ_pair_iff (het_positions : List Int) (targ_pairs : List (Int × Int)) :
    has_targ_pair het_positions targ_pairs = true
      ↔ ∃ x ∈ targ_pairs, x.1 ∈ het_positions ∧ x.2 ∈ het_positions := by
  unfold has_targ_pair
  rw [List.any_eq_true]
  constructor
  · rintro ⟨x, hx, hpred⟩
    simp only [Bool.and_eq_true, decide_eq_true_eq] at hpred
    exact ⟨x, hx, hpred⟩
  · rintro ⟨x, hx, h1, h2⟩
    exact ⟨x, hx, by simp only [Bool.and_eq_true, decide_eq_true_eq]; exact ⟨h1, h2⟩⟩

theorem mem_sample_hets (f : HapRow → Bool) (sample : String) (targ_haps_df : List HapRow)
    (v : Int) :
    v ∈ (targ_haps_df.filter (fun r => f r && r.sample == sample)).map (fun r => r.pos)
      ↔ ∃ r ∈ targ_haps_df, r.sample = sample ∧ r.pos = v ∧ f r = true := by
  rw [List.mem_map]
  constructor
  · rintro ⟨r, hr, rfl⟩
    rw [List.mem_filter] at hr
    obtain ⟨hrdf, hpred⟩ := hr
    simp only [Bool.and_eq_true, beq_iff_eq] at hpred
    exact ⟨r, hrdf, hpred.2, rfl, hpred.1⟩
  · rintro ⟨r, hrdf, hs, hv, hf⟩
    refine ⟨r, ?_, hv⟩
    rw [List.mem_filter]
    exact ⟨hrdf, by simp only [Bool.and_eq_true, beq_iff_eq]; exact ⟨hf, hs⟩⟩

theorem has_targ_pos_pair_same_hap_eq_or (sample : String) (targ_pairs : List (Int × Int))
    (targ_haps_df : List HapRow) :
    has_targ_pos_pair_same_hap sample targ_pairs targ_haps_df
      = (has_targ_pair
          ((targ_haps_df.filter (fun r => r.hap1 && r.sample == sample)).map (fun r => r.pos))
          targ_pairs
        || has_targ_pair
          ((targ_haps_df.filter (fun r => r.hap2 && r.sample == sample)).map (fun r => r.pos))
          targ_pairs) := by
  unfold has_targ_pos_pair_same_hap
  cases hA : has_targ_pair
      ((targ_haps_df.filter (fun r => r.hap1 && r.sample == sample)).map (fun r => r.pos))
      targ_pairs <;>
    simp [hA]

/-- C6: in pair mode the sample is reported targetable (for the modelled
Cas variety) iff some generated targetable pair has both of its positions
present as rows of the sample's haplotype table with the SAME haplotype
flag set — both positions on haplotype 1, or both on haplotype 2. -/
theorem c6_pair_mode_same_haplotype_iff (sample : String) (targ_pairs : List (Int × Int))
    (targ_haps_df : List HapRow) :
    has_targ_pos_pair_same_hap sample targ_pairs targ_haps_df = true
      ↔ ∃ x ∈ targ_pairs,
          ((∃ r ∈ targ_haps_df, r.sample = sample ∧ r.pos = x.1 ∧ r.hap1 = true)
            ∧ (∃ r ∈ targ_haps_df, r.sample = sample ∧ r.pos = x.2 ∧ r.hap1 = true))
          ∨ ((∃ r ∈ targ_haps_df, r.sample = sample ∧ r.pos = x.1 ∧ r.hap2 = true)
            ∧ (∃ r ∈ targ_haps_df, r.sample = sample ∧ r.pos = x.2 ∧ r.hap2 = true)) := by
  rw [has_targ_pos_pair_same_hap_eq_or, Bool.or_eq_true, has_targ_pair_iff, has_targ_pair_iff]
  simp only [mem_sample_hets]
  constructor
  · rintro (⟨x, hx, hp⟩ | ⟨x, hx, hp⟩)
    · exact ⟨x, hx, Or.inl hp⟩
    · exact ⟨x, hx, Or.inr hp⟩
  · rintro ⟨x, hx, hp | hp⟩
    · exact Or.inl ⟨x, hx, hp⟩
    · exact Or.inr ⟨x, hx, hp⟩
